import Mathlib

/- Shallow embedding of the secrets-manager vault engine
   (src/core/vault.ts, src/core/crypto.ts, src/storage/database.ts,
   src/utils/validation.ts, src/utils/constants.ts) and of the backup
   codec (src/core/backup.ts).  Randomness (nonces, salts, uuids) is
   modelled by a counter threaded through the state, so every fresh
   value is distinct; AES-256-GCM is modelled symbolically: a blob
   records its encrypting key, nonce and plaintext, and decryption
   succeeds exactly under the encrypting key. -/

/-- The four legal environments (src/utils/constants.ts VALID_ENVIRONMENTS). -/
inductive Env
  | dev
  | staging
  | prod
  | all
deriving DecidableEq

/-- PBKDF2 key derivation (CryptoManager.deriveMasterKey) is deterministic,
    so a derived master key is identified by its (password, salt) pair. -/
structure MKey where
  pw : String
  salt : Nat
deriving DecidableEq

/-- Symbolic AES-256-GCM blob produced by CryptoManager.encrypt: it records
    the encrypting key, the fresh nonce and the plaintext. -/
structure Ct where
  key : MKey
  nonce : Nat
  plain : String
deriving DecidableEq

/-- CryptoManager.encrypt with an explicit fresh nonce. -/
def encryptC (k : MKey) (nonce : Nat) (p : String) : Ct := ⟨k, nonce, p⟩

/-- CryptoManager.decrypt: authenticated decryption succeeds exactly under
    the encrypting key. -/
def decryptC (k : MKey) (c : Ct) : Option String :=
  if c.key = k then some c.plain else none

/-- CryptoManager.verifyPassword: decrypt and compare; any error gives false. -/
def verifyPw (k : MKey) (testValue : String) (c : Ct) : Bool :=
  match decryptC k c with
  | some s => s == testValue
  | none => false

/-- One row of the secrets table (src/storage/database.ts schema). -/
structure SecretRow where
  id : Nat
  key : String
  value : Ct
  environment : Env
  description : Option String
  tags : Option (List String)
  created_at : Nat
  updated_at : Nat
  last_used_at : Option Nat
  expires_at : Option Nat
deriving DecidableEq

/-- Audit actions used by the vault engine. -/
inductive AuditAction
  | read
  | write
  | delete
  | rotate
deriving DecidableEq

/-- One row of the audit_logs table. -/
structure AuditEntry where
  id : Nat
  timestamp : Nat
  action : AuditAction
  secretKey : String
  environment : Env
deriving DecidableEq

/-- The vault_meta key/value table, with one typed field per key the engine
    uses.  `none` means the key is absent.  For lockout_until, `some none`
    models the empty-string value written by clearLockoutState. -/
structure MetaTable where
  salt : Option Nat
  version : Option String
  createdAt : Option Nat
  autoLockTimeout : Option Nat
  sentinel : Option Ct
  failedAttempts : Option Nat
  lockoutUntil : Option (Option Nat)
deriving DecidableEq

/-- The persistent database file: meta, secrets and audit rows. -/
structure DBState where
  meta : MetaTable
  secrets : List SecretRow
  audit : List AuditEntry
deriving DecidableEq

/-- VaultState enum. -/
inductive VState
  | notInit
  | locked
  | unlocked
  | lockedOut
deriving DecidableEq

/-- In-process RuntimeState of the VaultManager. -/
structure RtState where
  masterKey : Option MKey
  vaultState : VState
  failedAttempts : Nat
  lockoutUntil : Option Nat
deriving DecidableEq

/-- A VaultManager instance together with its database file, a randomness
    counter and the wall clock. -/
structure World where
  fileExists : Bool
  db : DBState
  rt : RtState
  rng : Nat
  now : Nat
deriving DecidableEq

/-- The error taxonomy (src/utils/errors.ts), restricted to the kinds the
    vault engine raises. -/
inductive VErr
  | vaultNotInit
  | vaultAlready
  | vaultLocked
  | wrongPassword (remaining : Nat)
  | lockedOut (seconds : Nat)
  | secretNotFound
  | secretExists
  | invalidKey
  | valueTooLarge
  | decryptionFailed
deriving DecidableEq

def MAX_FAILED_ATTEMPTS : Nat := 3

def LOCKOUT_DURATION_MS : Nat := 5 * 60 * 1000

def MAX_SECRET_VALUE_SIZE : Nat := 64 * 1024

def DEFAULT_AUTO_LOCK_TIMEOUT : Nat := 15

def VERIFICATION_VALUE : String := "secrets-manager-v1"

/-- getSecretRaw: SELECT * FROM secrets WHERE key = ? AND environment = ?. -/
def getSecretRaw (db : DBState) (k : String) (e : Env) : Option SecretRow :=
  db.secrets.find? (fun r => r.key == k && r.environment == e)

/-- UPDATE secrets SET last_used_at = ? WHERE id = ?. -/
def setLastUsed (db : DBState) (i : Nat) (t : Nat) : DBState :=
  { db with
    secrets := db.secrets.map
      (fun r => if r.id = i then { r with last_used_at := some t } else r) }

/-- AuditLogger.log: INSERT INTO audit_logs (fresh uuid from the counter). -/
def auditLog (w : World) (a : AuditAction) (k : String) (e : Env) : World :=
  { w with
    db := { w.db with audit := w.db.audit ++ [⟨w.rng, w.now, a, k, e⟩] }
    rng := w.rng + 1 }

/-- VaultManager.getSecret: look up (key, environment); when absent and the
    environment is not 'all', fall back to (key, 'all'); decrypt, update
    last_used_at, log a read entry under the requested environment. -/
def getSecret (w : World) (k : String) (e : Env) :
    Except VErr (Option String) × World :=
  match w.rt.masterKey with
  | none => (.error .vaultLocked, w)
  | some mk =>
    let s0 := getSecretRaw w.db k e
    let s1 := if s0.isNone ∧ e ≠ Env.all then getSecretRaw w.db k Env.all else s0
    match s1 with
    | none => (.ok none, w)
    | some s =>
      match decryptC mk s.value with
      | none => (.error .decryptionFailed, w)
      | some p =>
        let w1 := { w with db := setLastUsed w.db s.id w.now }
        (.ok (some p), auditLog w1 .read k e)

/-- VaultManager.getSecretWithDetails: same lookup and fallback, but the read
    entry is logged under the matched row's environment. -/
def getSecretWithDetails (w : World) (k : String) (e : Env) :
    Except VErr (Option (SecretRow × String)) × World :=
  match w.rt.masterKey with
  | none => (.error .vaultLocked, w)
  | some mk =>
    let s0 := getSecretRaw w.db k e
    let s1 := if s0.isNone ∧ e ≠ Env.all then getSecretRaw w.db k Env.all else s0
    match s1 with
    | none => (.ok none, w)
    | some s =>
      match decryptC mk s.value with
      | none => (.error .decryptionFailed, w)
      | some p =>
        let w1 := { w with db := setLastUsed w.db s.id w.now }
        (.ok (some (s, p)), auditLog w1 .read k s.environment)

/-- A fixture master key for concrete evaluations. -/
def mkEx : MKey := ⟨"TestPassword123!", 0⟩

/-- A fixture vault_meta table consistent with an unlocked vault under mkEx. -/
def metaEx : MetaTable :=
  ⟨some 0, some "1.0.0", some 1, some 15,
   some (encryptC mkEx 1 VERIFICATION_VALUE), some 0, some none⟩

/-- A fixture row stored in environment 'all'. -/
def rowAllEx : SecretRow :=
  ⟨1, "API_KEY", encryptC mkEx 2 "key123", Env.all, none, none, 5, 5, none, none⟩

/-- A fixture world: initialized, unlocked under mkEx, one secret in 'all'. -/
def wEx : World :=
  ⟨true, ⟨metaEx, [rowAllEx], []⟩, ⟨some mkEx, .unlocked, 0, none⟩, 10, 100⟩

/-- loadLockoutState: merge the persisted failed_attempts and lockout_until
    meta values into the runtime state.  An absent key, and for lockout_until
    also the empty-string value, leaves the runtime field unchanged, matching
    the truthiness tests in the source. -/
def loadLockoutState (db : DBState) (rt : RtState) : RtState :=
  let rt1 := match db.meta.failedAttempts with
    | some n => { rt with failedAttempts := n }
    | none => rt
  match db.meta.lockoutUntil with
  | some (some t) => { rt1 with lockoutUntil := some t }
  | _ => rt1

/-- persistLockoutState: write the runtime counter and lockout deadline to
    vault_meta (a missing deadline is stored as the empty string). -/
def persistLockoutState (db : DBState) (rt : RtState) : DBState :=
  { db with meta := { db.meta with
      failedAttempts := some rt.failedAttempts
      lockoutUntil := some rt.lockoutUntil } }

/-- clearLockoutState: reset the persisted counter to 0 and the deadline to
    the empty string. -/
def clearLockoutState (db : DBState) : DBState :=
  { db with meta := { db.meta with
      failedAttempts := some 0
      lockoutUntil := some none } }

/-- Result of VaultManager.unlock: the returned value or thrown error, the
    final world, and how many times the key-derivation routine (a
    CryptoManager construction) ran during the attempt. -/
structure UnlockOut where
  result : Except VErr Bool
  w : World
  kdfCalls : Nat

/-- The part of VaultManager.unlock that runs after the lockout checks:
    derive the candidate key, verify it against the sentinel, and either
    install it or update the failure counters. -/
def unlockCore (w : World) (password : String) : UnlockOut :=
  match w.db.meta.salt with
  | none => ⟨.error .vaultNotInit, w, 0⟩
  | some salt =>
    let testKey : MKey := ⟨password, salt⟩
    let ok := match w.db.meta.sentinel with
      | some c => verifyPw testKey VERIFICATION_VALUE c
      | none => false
    if ok then
      let rt1 := { w.rt with
        failedAttempts := 0
        lockoutUntil := none
        masterKey := some testKey
        vaultState := VState.unlocked }
      ⟨.ok true, { w with rt := rt1, db := clearLockoutState w.db }, 1⟩
    else
      let fa := w.rt.failedAttempts + 1
      if fa ≥ MAX_FAILED_ATTEMPTS then
        let rt1 := { w.rt with
          failedAttempts := fa
          lockoutUntil := some (w.now + LOCKOUT_DURATION_MS)
          vaultState := VState.lockedOut }
        ⟨.error (.lockedOut ((LOCKOUT_DURATION_MS + 999) / 1000)),
         { w with rt := rt1, db := persistLockoutState w.db rt1 }, 1⟩
      else
        let rt1 := { w.rt with failedAttempts := fa }
        ⟨.error (.wrongPassword (MAX_FAILED_ATTEMPTS - fa)),
         { w with rt := rt1, db := persistLockoutState w.db rt1 }, 1⟩

/-- VaultManager.unlock (vault.ts lines 97-159): load the persisted lockout
    state, reject inside the lockout window before any key derivation, clear
    an expired window, then verify the candidate key. -/
def unlockVault (w : World) (password : String) : UnlockOut :=
  if w.fileExists = true then
    let rt0 := loadLockoutState w.db w.rt
    match rt0.lockoutUntil with
    | some t =>
      if w.now < t then
        ⟨.error (.lockedOut ((t - w.now + 999) / 1000)), { w with rt := rt0 }, 0⟩
      else
        let rt1 := { rt0 with failedAttempts := 0, lockoutUntil := none }
        unlockCore { w with rt := rt1, db := clearLockoutState w.db } password
    | none => unlockCore { w with rt := rt0 } password
  else ⟨.error .vaultNotInit, w, 0⟩

/-- A fixture sentinel blob encrypted under mkEx. -/
def sentinelEx : Ct := encryptC mkEx 1 VERIFICATION_VALUE

/-- A locked-out fixture: persisted lockout deadline 200, clock at 100. -/
def wLockedEx : World :=
  ⟨true,
   ⟨⟨some 0, some "1.0.0", some 1, some 15, some sentinelEx, some 3, some (some 200)⟩,
    [], []⟩,
   ⟨none, .lockedOut, 3, some 200⟩, 10, 100⟩

/-- The same fixture after the wall clock passed the deadline. -/
def wExpiredEx : World := { wLockedEx with now := 300 }

/-- A locked fixture with two persisted failed attempts and no lockout. -/
def wTwoFailsEx : World :=
  ⟨true,
   ⟨⟨some 0, some "1.0.0", some 1, some 15, some sentinelEx, some 2, some none⟩,
    [], []⟩,
   ⟨none, .locked, 0, none⟩, 10, 100⟩

def isUpperAZ (c : Char) : Bool := 'A' ≤ c && c ≤ 'Z'

def isDigit09 (c : Char) : Bool := '0' ≤ c && c ≤ '9'

/-- The regular expression ^[A-Z][A-Z0-9_]*$ used by validateSecretKey. -/
def keyRegexB (k : String) : Bool :=
  match k.data with
  | [] => false
  | c :: cs => isUpperAZ c && cs.all (fun d => isUpperAZ d || isDigit09 d || d == '_')

/-- validateSecretKey (src/utils/validation.ts lines 42-54); the second test
    models key.trim() === '' as all characters being whitespace. -/
def validateSecretKey (k : String) : Except VErr Unit :=
  if k = "" ∨ k.data.all (fun c => c.isWhitespace) then .error .invalidKey
  else if ¬ keyRegexB k then .error .invalidKey
  else if k.length > 255 then .error .invalidKey
  else .ok ()

/-- VaultManager.addSecret (vault.ts lines 234-285): byte-length check,
    duplicate check, encrypt, insert, write audit entry.  The engine performs
    no key-syntax validation here. -/
def addSecret (w : World) (k : String) (v : String) (e : Env)
    (description : Option String) (tags : Option (List String))
    (expiresAt : Option Nat) : Except VErr SecretRow × World :=
  match w.rt.masterKey with
  | none => (.error .vaultLocked, w)
  | some mk =>
    if v.utf8ByteSize > MAX_SECRET_VALUE_SIZE then (.error .valueTooLarge, w)
    else if (getSecretRaw w.db k e).isSome then (.error .secretExists, w)
    else
      let enc := encryptC mk w.rng v
      let id := w.rng + 1
      let row : SecretRow :=
        ⟨id, k, enc, e, description, tags, w.now, w.now, none, expiresAt⟩
      let w1 := { w with
        db := { w.db with secrets := w.db.secrets ++ [row] }
        rng := w.rng + 2 }
      (.ok row, auditLog w1 .write k e)

/-- The SQL text of an environment, used for ORDER BY comparisons. -/
def envStr : Env → String
  | .dev => "dev"
  | .staging => "staging"
  | .prod => "prod"
  | .all => "all"

/-- ORDER BY key, environment (binary collation on the stored text). -/
def rowLe (a b : SecretRow) : Bool :=
  match compare a.key b.key with
  | .lt => true
  | .gt => false
  | .eq =>
    match compare (envStr a.environment) (envStr b.environment) with
    | .gt => false
    | _ => true

/-- Insert a row into a list sorted by rowLe. -/
def insertSorted (r : SecretRow) : List SecretRow → List SecretRow
  | [] => [r]
  | x :: xs => if rowLe r x then r :: x :: xs else x :: insertSorted r xs

/-- Stable sort by rowLe, modelling ORDER BY key, environment. -/
def sortRows : List SecretRow → List SecretRow
  | [] => []
  | x :: xs => insertSorted x (sortRows xs)

/-- VaultManager.listSecrets: optional filter to the given environment or
    'all', ORDER BY key, environment, no decryption. -/
def listSecrets (w : World) (envFilter : Option Env) :
    Except VErr (List SecretRow) × World :=
  match w.rt.masterKey with
  | none => (.error .vaultLocked, w)
  | some _ =>
    let rows := match envFilter with
      | some e => w.db.secrets.filter
          (fun r => r.environment == e || r.environment == Env.all)
      | none => w.db.secrets
    (.ok (sortRows rows), w)

/-- UPDATE secrets SET value = ?, updated_at = ? WHERE id = ?. -/
def setValueUpdatedById (secrets : List SecretRow) (i : Nat) (v : Ct) (t : Nat) :
    List SecretRow :=
  secrets.map (fun r => if r.id = i then { r with value := v, updated_at := t } else r)

/-- UPDATE secrets SET value = ? WHERE id = ? (changeMasterPassword). -/
def setValueById (secrets : List SecretRow) (i : Nat) (v : Ct) : List SecretRow :=
  secrets.map (fun r => if r.id = i then { r with value := v } else r)

/-- The per-row update and audit loop of rotateSecret. -/
def rotateApply (k : String) (enc : Ct) (t : Nat) :
    List SecretRow → World → World
  | [], w => w
  | s :: rest, w =>
    let w1 := { w with
      db := { w.db with secrets := setValueUpdatedById w.db.secrets s.id enc t } }
    rotateApply k enc t rest (auditLog w1 .rotate k s.environment)

/-- VaultManager.rotateSecret (vault.ts lines 445-464): collect the matching
    rows, encrypt the new value once, and apply that single ciphertext to
    every row. -/
def rotateSecret (w : World) (k : String) (newValue : String)
    (excludeEnvs : List Env) : Except VErr Nat × World :=
  match w.rt.masterKey with
  | none => (.error .vaultLocked, w)
  | some mk =>
    let secrets := (sortRows w.db.secrets).filter
      (fun s => s.key == k && ¬ excludeEnvs.contains s.environment)
    if secrets.length = 0 then (.error .secretNotFound, w)
    else
      let enc := encryptC mk w.rng newValue
      let w0 := { w with rng := w.rng + 1 }
      (.ok secrets.length, rotateApply k enc w.now secrets w0)

/-- Re-encryption of a row list under a new key with consecutive fresh
    nonces, the net effect of changeMasterPassword's loop when every row
    decrypts. -/
def reencList (newK : MKey) : Nat → List SecretRow → List SecretRow
  | _, [] => []
  | g, r :: rs =>
    { r with value := encryptC newK g r.value.plain } :: reencList newK (g + 1) rs

/-- The row loop of changeMasterPassword: decrypt each snapshot row under the
    old key and update it in place under the new key, one UPDATE statement at
    a time with no transaction, stopping at the first decryption failure and
    keeping the earlier updates. -/
def cmULoop (oldK newK : MKey) :
    List SecretRow → List SecretRow → Nat → Option VErr × List SecretRow × Nat
  | [], secrets, g => (none, secrets, g)
  | r :: rest, secrets, g =>
    match decryptC oldK r.value with
    | none => (some .decryptionFailed, secrets, g)
    | some p => cmULoop oldK newK rest (setValueById secrets r.id (encryptC newK g p)) (g + 1)

/-- VaultManager.lock: drop the master key and close the database. -/
def lockVault (w : World) : World :=
  { w with rt := { w.rt with masterKey := none, vaultState := VState.locked } }

/-- VaultManager.changeMasterPassword (vault.ts lines 508-556): verify the
    old password against the sentinel, re-encrypt every secret row, write the
    new salt and sentinel, and when the engine was unlocked, lock and unlock
    with the new password. -/
def changeMasterPassword (w : World) (oldPassword newPassword : String) :
    Except VErr Unit × World :=
  if w.fileExists = true then
    match w.db.meta.salt with
    | none => (.error .vaultNotInit, w)
    | some salt =>
      let oldK : MKey := ⟨oldPassword, salt⟩
      let ok := match w.db.meta.sentinel with
        | some c => verifyPw oldK VERIFICATION_VALUE c
        | none => false
      if ok then
        let newSalt := w.rng
        let newK : MKey := ⟨newPassword, newSalt⟩
        match cmULoop oldK newK w.db.secrets w.db.secrets (w.rng + 1) with
        | (some err, secrets1, g1) =>
          (.error err, { w with db := { w.db with secrets := secrets1 }, rng := g1 })
        | (none, secrets1, g1) =>
          let db1 := { w.db with
            secrets := secrets1
            meta := { w.db.meta with
              salt := some newSalt
              sentinel := some (encryptC newK g1 VERIFICATION_VALUE) } }
          let w1 := { w with db := db1, rng := g1 + 1 }
          match w.rt.masterKey with
          | some _ =>
            let out := unlockVault (lockVault w1) newPassword
            (match out.result with
             | .ok _ => (.ok (), out.w)
             | .error err => (.error err, out.w))
          | none => (.ok (), w1)
      else (.error (.wrongPassword MAX_FAILED_ATTEMPTS), w)
  else (.error .vaultNotInit, w)

/-- A fixture world with the same key stored in dev and prod under mkEx. -/
def wRotEx : World :=
  ⟨true,
   ⟨metaEx,
    [⟨1, "API_KEY", encryptC mkEx 2 "old-key", Env.dev, none, none, 5, 5, none, none⟩,
     ⟨2, "API_KEY", encryptC mkEx 3 "old-key", Env.prod, none, none, 5, 5, none, none⟩],
    []⟩,
   ⟨some mkEx, .unlocked, 0, none⟩, 10, 100⟩

/-- A fixture row that does not decrypt under mkEx. -/
def rowForeignEx : SecretRow :=
  ⟨2, "OTHER_KEY", encryptC ⟨"other", 99⟩ 3 "v2", Env.dev, none, none, 5, 5, none, none⟩

/-- A fixture locked world whose second row does not decrypt under mkEx. -/
def wBadEx : World :=
  ⟨true,
   ⟨metaEx,
    [⟨1, "API_KEY", encryptC mkEx 2 "v1", Env.dev, none, none, 5, 5, none, none⟩,
     rowForeignEx],
    []⟩,
   ⟨none, .locked, 0, none⟩, 10, 100⟩

/-- A fresh database file, as created by initializeDatabase when absent. -/
def emptyDB : DBState :=
  ⟨⟨none, none, none, none, none, none, none⟩, [], []⟩

/-- VaultManager.initialize (vault.ts lines 74-95) on top of
    initializeDatabase (src/storage/database.ts): schema creation is CREATE
    TABLE IF NOT EXISTS, so on an existing file every stored row survives;
    a fresh salt and a fresh sentinel are then written and the engine goes
    to UNLOCKED. -/
def initVault (w : World) (password : String) (force : Bool)
    (timeout : Option Nat) : Except VErr Unit × World :=
  if w.fileExists = true ∧ force = false then (.error .vaultAlready, w)
  else
    let salt := w.rng
    let db0 := if w.fileExists = true then w.db else emptyDB
    let key : MKey := ⟨password, salt⟩
    let db1 := { db0 with meta := { db0.meta with
      salt := some salt
      version := some "1.0.0"
      createdAt := some w.now
      autoLockTimeout := some (timeout.getD DEFAULT_AUTO_LOCK_TIMEOUT)
      sentinel := some (encryptC key (w.rng + 1) VERIFICATION_VALUE) } }
    (.ok (), { w with
      fileExists := true
      db := db1
      rt := { w.rt with masterKey := some key, vaultState := VState.unlocked }
      rng := w.rng + 2 })

/-- Whether the vault's verification sentinel decrypts under a key. -/
def sentinelDecrypts (db : DBState) (k : MKey) : Bool :=
  match db.meta.sentinel with
  | some c => (decryptC k c).isSome
  | none => false

/-- Invariant I2 relative to a master key: every stored secret value
    decrypts under the key exactly when the verification sentinel does. -/
def I2 (db : DBState) (k : MKey) : Prop :=
  ∀ r ∈ db.secrets, (decryptC k r.value).isSome = sentinelDecrypts db k

/-- SQLite's default LIKE case folding: ASCII lower-case letters compare
    equal to their upper-case forms; all other characters are themselves. -/
def upChar (c : Char) : Char :=
  if 'a' ≤ c ∧ c ≤ 'z' then Char.ofNat (c.toNat - 32) else c

/-- One step of SQLite LIKE matching with '\' as the ESCAPE character:
    % matches any run, _ any single character, an escaped character and a
    plain character match a text character up to ASCII case. -/
def likeStep (rec : List Char → List Char → Bool) (p t : List Char) : Bool :=
  match p with
  | [] => t.isEmpty
  | c :: ps =>
    if c = '%' then
      rec ps t ||
        (match t with
         | [] => false
         | _ :: ts => rec (c :: ps) ts)
    else if c = '_' then
      match t with
      | [] => false
      | _ :: ts => rec ps ts
    else if c = '\\' then
      match ps with
      | [] => false
      | e :: ps2 =>
        match t with
        | [] => false
        | tc :: ts => upChar tc == upChar e && rec ps2 ts
    else
      match t with
      | [] => false
      | tc :: ts => upChar tc == upChar c && rec ps ts

/-- Fuel-driven iteration of likeStep; any fuel above the combined length is
    enough. -/
def likeF : Nat → List Char → List Char → Bool
  | 0 => fun _ _ => false
  | fuel + 1 => likeStep (likeF fuel)

/-- SQLite LIKE with ESCAPE, as used by searchSecrets. -/
def likeM (p t : List Char) : Bool := likeF (p.length + t.length + 1) p t

/-- escapeLikePattern (vault.ts lines 482-484): prefix %, _ and \ in the
    user's query with the escape character \. -/
def escapeL : List Char → List Char
  | [] => []
  | c :: cs =>
    if c = '%' ∨ c = '_' ∨ c = '\\' then '\\' :: c :: escapeL cs
    else c :: escapeL cs

/-- The LIKE pattern %escaped(query)% built by searchSecrets. -/
def mkPattern (q : String) : List Char := '%' :: (escapeL q.data ++ ['%'])

/-- The SQL predicate of searchSecrets:
    key LIKE pattern ESCAPE '\' OR description LIKE pattern ESCAPE '\';
    a NULL description never matches. -/
def searchRowMatch (q : String) (r : SecretRow) : Bool :=
  likeM (mkPattern q) r.key.data ||
    (match r.description with
     | some d => likeM (mkPattern q) d.data
     | none => false)

/-- VaultManager.searchSecrets (vault.ts lines 466-484). -/
def searchSecrets (w : World) (q : String) :
    Except VErr (List SecretRow) × World :=
  match w.rt.masterKey with
  | none => (.error .vaultLocked, w)
  | some _ => (.ok (sortRows (w.db.secrets.filter (searchRowMatch q))), w)

/-- Whether the first list starts the second, comparing characters exactly. -/
def headEq : List Char → List Char → Bool
  | [], _ => true
  | _ :: _, [] => false
  | a :: as, b :: bs => a == b && headEq as bs

/-- Case-sensitive substring containment, the predicate of the claim. -/
def csSubB (q t : List Char) : Bool :=
  match t with
  | [] => q.isEmpty
  | c :: ts => headEq q (c :: ts) || csSubB q ts

/-- ASCII-case-folded substring containment of the query in a text. -/
def foldSub (q t : String) : Prop :=
  ∃ x y, t.data.map upChar = x ++ q.data.map upChar ++ y

/-- A fixture row carrying a description, for search evaluations. -/
def rowDescEx : SecretRow :=
  ⟨1, "KEY1", encryptC mkEx 2 "v", Env.dev, some "Foo", none, 5, 5, none, none⟩

/-- A fixture world holding only rowDescEx, unlocked under mkEx. -/
def wSearchEx : World :=
  ⟨true, ⟨metaEx, [rowDescEx], []⟩, ⟨some mkEx, .unlocked, 0, none⟩, 10, 100⟩

/-- A PBKDF2-derived backup key, identified by its password and salt bytes
    (pbkdf2Sync is deterministic). -/
structure BKey where
  pw : String
  salt : List Nat
deriving DecidableEq

/-- The AES-256-GCM interface the backup codec uses from node:crypto,
    modelled by its contract: a cipher, its 16-byte authentication tag, and
    a decryption that inverts encryption under the matching key, iv and
    tag. -/
structure Aead where
  enc : BKey → List Nat → List Nat → List Nat
  tagOf : BKey → List Nat → List Nat → List Nat
  dec : BKey → List Nat → List Nat → List Nat → Option (List Nat)
  tag_len : ∀ k iv d, (tagOf k iv d).length = 16
  dec_enc : ∀ k iv d, dec k iv (tagOf k iv d) (enc k iv d) = some d

/-- Buffer.writeUInt32BE for a value below 2^32. -/
def u32be (n : Nat) : List Nat :=
  [n / 16777216 % 256, n / 65536 % 256, n / 256 % 256, n % 256]

/-- Buffer.readUInt32BE at an offset. -/
def readU32 (l : List Nat) (off : Nat) : Nat :=
  match l.drop off with
  | b0 :: b1 :: b2 :: b3 :: _ => b0 * 16777216 + b1 * 65536 + b2 * 256 + b3
  | _ => 0

/-- Buffer.subarray(a, b): the bytes from a (inclusive) to b (exclusive). -/
def subBytes (l : List Nat) (a b : Nat) : List Nat := (l.drop a).take (b - a)

/-- BackupManager.createBackup (src/core/backup.ts lines 64-119): plain
    framing 0x00, metadata length, metadata, vault bytes; encrypted framing
    0x01, salt, iv, tag, metadata length, metadata, ciphertext.  The
    metadata JSON bytes and the random salt and iv are parameters. -/
def createBackup (A : Aead) (vaultData metaBytes salt iv : List Nat)
    (password : Option String) : List Nat :=
  match password with
  | some pw =>
    1 :: (salt ++ iv ++ A.tagOf ⟨pw, salt⟩ iv vaultData ++
      u32be metaBytes.length ++ metaBytes ++ A.enc ⟨pw, salt⟩ iv vaultData)
  | none => 0 :: (u32be metaBytes.length ++ metaBytes ++ vaultData)

/-- BackupManager.restoreBackup (src/core/backup.ts lines 121-178): parse
    the framing, decrypt when the type byte is 0x01, and return the vault
    bytes that are written to the database file. -/
def restoreBackup (A : Aead) (backupData : List Nat)
    (password : Option String) : Except String (List Nat) :=
  if backupData.getD 0 0 == 1 then
    match password with
    | none => .error "Backup is encrypted. Password required."
    | some pw =>
      let salt := subBytes backupData 1 17
      let iv := subBytes backupData 17 29
      let authTag := subBytes backupData 29 45
      let metadataLength := readU32 backupData 45
      let encrypted := backupData.drop (49 + metadataLength)
      match A.dec ⟨pw, salt⟩ iv authTag encrypted with
      | some v => .ok v
      | none => .error "Failed to decrypt backup. Wrong password?"
  else
    let metadataLength := readU32 backupData 1
    .ok (backupData.drop (5 + metadataLength))

/-- C4: on an unlocked vault, get_secret returns the plaintext of the
    (key, environment) row when it exists; when that row is absent and the
    environment is not 'all' it returns the plaintext of the (key, 'all')
    row when that exists; when the environment is 'all' no fallback is
    attempted; when no matching row exists it returns null and leaves the
    store unchanged. -/
theorem getSecret_env_fallback
    (w : World) (k : String) (e : Env) (mk : MKey)
    (hmk : w.rt.masterKey = some mk) :
    (∀ r p, getSecretRaw w.db k e = some r → decryptC mk r.value = some p →
        (getSecret w k e).1 = .ok (some p)) ∧
    (∀ r p, e ≠ Env.all → getSecretRaw w.db k e = none →
        getSecretRaw w.db k Env.all = some r → decryptC mk r.value = some p →
        (getSecret w k e).1 = .ok (some p)) ∧
    (e = Env.all → getSecretRaw w.db k Env.all = none →
        getSecret w k e = (.ok none, w)) ∧
    (e ≠ Env.all → getSecretRaw w.db k e = none →
        getSecretRaw w.db k Env.all = none →
        getSecret w k e = (.ok none, w)) := by
  refine ⟨?_, ?_, ?_, ?_⟩
  · intro r p hr hp
    simp [getSecret, hmk, hr, hp]
  · intro r p hne h0 h1 hp
    simp [getSecret, hmk, h0, h1, hp, hne]
  · intro he h1
    subst he
    simp [getSecret, hmk, h1]
  · intro hne h0 h1
    simp [getSecret, hmk, h0, h1, hne]

/-- Witness for getSecret_env_fallback at a concrete vault. -/
theorem getSecret_env_fallback_witness :
    (getSecret wEx "API_KEY" Env.dev).1 = .ok (some "key123") := by
  have h := getSecret_env_fallback wEx "API_KEY" Env.dev mkEx rfl
  exact h.2.1 rowAllEx "key123" (by decide) rfl rfl rfl

/-- C10: when get_secret is served by the fallback row (key, 'all') because
    the requested environment differs from 'all' and no exact row exists, the
    read audit entry records the requested environment, whereas
    get_secret_with_details in the same situation records the matched row's
    environment 'all'. -/
theorem fallback_read_audit_environment
    (w : World) (k : String) (e : Env) (mk : MKey) (r : SecretRow) (p : String)
    (hmk : w.rt.masterKey = some mk) (hne : e ≠ Env.all)
    (h0 : getSecretRaw w.db k e = none)
    (h1 : getSecretRaw w.db k Env.all = some r)
    (hp : decryptC mk r.value = some p) :
    (getSecret w k e).2.db.audit =
      w.db.audit ++ [⟨w.rng, w.now, .read, k, e⟩] ∧
    (getSecretWithDetails w k e).2.db.audit =
      w.db.audit ++ [⟨w.rng, w.now, .read, k, r.environment⟩] ∧
    r.environment = Env.all := by
  have hre : r.environment = Env.all := by
    have := List.find?_some h1
    simp only [Bool.and_eq_true, beq_iff_eq] at this
    exact this.2
  refine ⟨?_, ?_, hre⟩
  · simp [getSecret, hmk, h0, h1, hp, hne, auditLog, setLastUsed]
  · simp [getSecretWithDetails, hmk, h0, h1, hp, hne, auditLog, setLastUsed]

/-- Witness for fallback_read_audit_environment at a concrete vault. -/
theorem fallback_read_audit_environment_witness :
    (getSecret wEx "API_KEY" Env.dev).2.db.audit =
      [⟨10, 100, .read, "API_KEY", Env.dev⟩] ∧
    (getSecretWithDetails wEx "API_KEY" Env.dev).2.db.audit =
      [⟨10, 100, .read, "API_KEY", Env.all⟩] := by
  have h := fallback_read_audit_environment wEx "API_KEY" Env.dev mkEx rowAllEx
    "key123" rfl (by decide) rfl rfl rfl
  exact ⟨h.1, h.2.1⟩

/-- C3: while the persisted lockout_until lies in the future every unlock
    attempt fails with LockedOut — whatever the password — and the
    key-derivation routine never runs; once the wall clock reaches
    lockout_until, an unlock with the correct password succeeds and resets
    the failed-attempt counter to zero; and on a wrong password the lockout
    window is entered exactly when the failed-attempt counter reaches
    MAX_FAILED_ATTEMPTS = 3. -/
theorem unlock_lockout_window
    (w : World) (pw : String) (t f : Nat) :
    (w.fileExists = true → w.db.meta.lockoutUntil = some (some t) → w.now < t →
      (unlockVault w pw).result = .error (.lockedOut ((t - w.now + 999) / 1000)) ∧
      (unlockVault w pw).kdfCalls = 0) ∧
    (w.fileExists = true → w.db.meta.lockoutUntil = some (some t) → t ≤ w.now →
      ∀ s c, w.db.meta.salt = some s → w.db.meta.sentinel = some c →
        verifyPw ⟨pw, s⟩ VERIFICATION_VALUE c = true →
        (unlockVault w pw).result = .ok true ∧
        (unlockVault w pw).w.rt.failedAttempts = 0 ∧
        (unlockVault w pw).w.db.meta.failedAttempts = some 0 ∧
        (unlockVault w pw).w.rt.masterKey = some ⟨pw, s⟩ ∧
        (unlockVault w pw).w.rt.vaultState = VState.unlocked) ∧
    (w.fileExists = true → w.db.meta.lockoutUntil = some none →
      w.rt.lockoutUntil = none → w.db.meta.failedAttempts = some f → f ≤ 2 →
      ∀ s c, w.db.meta.salt = some s → w.db.meta.sentinel = some c →
        verifyPw ⟨pw, s⟩ VERIFICATION_VALUE c = false →
        (f = 2 →
          (unlockVault w pw).result = .error (.lockedOut 300) ∧
          (unlockVault w pw).w.db.meta.lockoutUntil =
            some (some (w.now + LOCKOUT_DURATION_MS)) ∧
          (unlockVault w pw).w.rt.vaultState = VState.lockedOut) ∧
        (f < 2 →
          (unlockVault w pw).result = .error (.wrongPassword (2 - f)) ∧
          (unlockVault w pw).w.db.meta.lockoutUntil = some none)) := by
  refine ⟨?_, ?_, ?_⟩
  · intro hE hlock hnow
    simp [unlockVault, hE, loadLockoutState, hlock, hnow]
  · intro hE hlock ht s c hsalt hsent hver
    have hnl : ¬ w.now < t := Nat.not_lt.mpr ht
    simp [unlockVault, hE, loadLockoutState, hlock, hnl, unlockCore,
      clearLockoutState, hsalt, hsent, hver]
  · intro hE hlock hrt hfa hf2 s c hsalt hsent hver
    constructor
    · intro h2
      subst h2
      simp [unlockVault, hE, loadLockoutState, hlock, hfa, hrt, unlockCore,
        hsalt, hsent, hver, MAX_FAILED_ATTEMPTS, LOCKOUT_DURATION_MS,
        persistLockoutState]
    · intro hlt
      have hmax : MAX_FAILED_ATTEMPTS = 3 := rfl
      have h3 : ¬ 2 ≤ f := by omega
      simp [unlockVault, hE, loadLockoutState, hlock, hfa, hrt, unlockCore,
        hsalt, hsent, hver, h3, persistLockoutState, hmax]

/-- Witness for unlock_lockout_window on concrete locked-out, expired and
    two-failures vaults. -/
theorem unlock_lockout_window_witness :
    ((unlockVault wLockedEx "TestPassword123!").result = .error (.lockedOut 1) ∧
      (unlockVault wLockedEx "TestPassword123!").kdfCalls = 0) ∧
    (unlockVault wExpiredEx "TestPassword123!").result = .ok true ∧
    (unlockVault wExpiredEx "TestPassword123!").w.rt.failedAttempts = 0 ∧
    (unlockVault wTwoFailsEx "WrongPassword1!").result = .error (.lockedOut 300) := by
  have hA := (unlock_lockout_window wLockedEx "TestPassword123!" 200 0).1
    rfl rfl (by decide)
  have hB := (unlock_lockout_window wExpiredEx "TestPassword123!" 200 0).2.1
    rfl rfl (by decide) 0 sentinelEx rfl rfl (by decide)
  have hC := ((unlock_lockout_window wTwoFailsEx "WrongPassword1!" 0 2).2.2
    rfl rfl rfl rfl (by decide) 0 sentinelEx rfl rfl (by decide)).1 rfl
  exact ⟨⟨hA.1, hA.2⟩, hB.1, hB.2.1, hC.1⟩

/-- An A-Z character is not whitespace. -/
theorem isUpperAZ_not_whitespace (c : Char) (h : isUpperAZ c = true) :
    c.isWhitespace = false := by
  cases hws : c.isWhitespace
  · rfl
  · exfalso
    have hd : c = ' ' ∨ c = '\t' ∨ c = '\r' ∨ c = '\n' := by
      simpa [Char.isWhitespace, or_assoc] using hws
    rcases hd with h1 | h1 | h1 | h1 <;> subst h1 <;> exact absurd h (by decide)

/-- C6 counterexample: "bad key" fails the key syntax (and validateSecretKey
    rejects it), yet add_secret accepts it and inserts a row, so the claim
    that add_secret validates key syntax before inserting is false. -/
theorem addSecret_invalid_key_counterexample :
    keyRegexB "bad key" = false ∧
    validateSecretKey "bad key" = .error .invalidKey ∧
    (addSecret wEx "bad key" "v" Env.dev none none none).1 =
      .ok ⟨11, "bad key", encryptC mkEx 10 "v", Env.dev, none, none,
        100, 100, none, none⟩ ∧
    (addSecret wEx "bad key" "v" Env.dev none none none).2.db.secrets.length = 2 := by
  refine ⟨by decide, rfl, rfl, rfl⟩

/-- C6 (amended): add_secret checks the value's UTF-8 byte length against
    the 64 KiB limit before inserting and rejects duplicates; the key syntax
    ^[A-Z][A-Z0-9_]*$ with length ≤ 255 is enforced by validateSecretKey,
    which the CLI layer calls but add_secret does not, so add_secret inserts
    a row even for a syntactically invalid key. -/
theorem addSecret_validation
    (w : World) (k v : String) (e : Env) (mk : MKey)
    (hmk : w.rt.masterKey = some mk) :
    (v.utf8ByteSize > MAX_SECRET_VALUE_SIZE →
      addSecret w k v e none none none = (.error .valueTooLarge, w)) ∧
    (∀ kk : String, validateSecretKey kk = .ok () ↔
      (keyRegexB kk = true ∧ kk.length ≤ 255)) ∧
    (v.utf8ByteSize ≤ MAX_SECRET_VALUE_SIZE → getSecretRaw w.db k e = none →
      keyRegexB k = false →
      (addSecret w k v e none none none).2.db.secrets =
        w.db.secrets ++ [⟨w.rng + 1, k, encryptC mk w.rng v, e, none, none,
          w.now, w.now, none, none⟩]) := by
  refine ⟨?_, ?_, ?_⟩
  · intro hbig
    simp [addSecret, hmk, hbig]
  · intro kk
    constructor
    · intro hok
      simp only [validateSecretKey] at hok
      split_ifs at hok with h1 h2 h3 <;>
        first
        | (simp at hok; done)
        | exact ⟨by simpa using h2, by omega⟩
    · rintro ⟨hreg, hlen⟩
      obtain ⟨c, cs, hdata⟩ : ∃ c cs, kk.data = c :: cs := by
        cases h : kk.data with
        | nil => simp [keyRegexB, h] at hreg
        | cons c cs => exact ⟨c, cs, rfl⟩
      have hc : isUpperAZ c = true := by
        simp only [keyRegexB, hdata, Bool.and_eq_true] at hreg
        exact hreg.1
      have hnw : kk.data.all (fun c => c.isWhitespace) = false := by
        simp only [hdata, List.all_cons, isUpperAZ_not_whitespace c hc,
          Bool.false_and]
      have hne : ¬ kk = "" := by
        intro h
        subst h
        simp at hdata
      simp [validateSecretKey, hne, hnw, hreg, Nat.not_lt.mpr hlen]
  · intro hsize hdup hbadkey
    have hns : ¬ v.utf8ByteSize > MAX_SECRET_VALUE_SIZE := Nat.not_lt.mpr hsize
    simp [addSecret, hmk, hns, hdup, auditLog]

/-- Witness for addSecret_validation: the oversize check, the validator
    characterisation and an invalid-key insert at concrete inputs. -/
theorem addSecret_validation_witness :
    (validateSecretKey "API_KEY" = .ok () ↔
      (keyRegexB "API_KEY" = true ∧ ("API_KEY" : String).length ≤ 255)) ∧
    (addSecret wEx "bad key" "v" Env.dev none none none).2.db.secrets =
      wEx.db.secrets ++ [⟨11, "bad key", encryptC mkEx 10 "v", Env.dev, none,
        none, 100, 100, none, none⟩] := by
  have h := addSecret_validation wEx "bad key" "v" Env.dev mkEx rfl
  exact ⟨h.2.1 "API_KEY", h.2.2 (by decide) rfl (by decide)⟩

/-- C5: rotate_secret encrypts the new value once and applies the same AEAD
    output (same nonce) to every updated row: on a vault holding API_KEY in
    dev and prod, both updated rows store the identical ciphertext, so no
    fresh per-row encryption takes place. -/
theorem rotateSecret_reuses_single_ciphertext :
    (rotateSecret wRotEx "API_KEY" "new-key" []).1 = .ok 2 ∧
    ((rotateSecret wRotEx "API_KEY" "new-key" []).2.db.secrets.map
      SecretRow.value) =
      [encryptC mkEx 10 "new-key", encryptC mkEx 10 "new-key"] := ⟨rfl, rfl⟩

/-- C2: with two rows of which the second does not decrypt under the old
    key, change_master_password aborts with DecryptionFailed but has already
    re-encrypted the first row in place — under a salt that is never
    persisted — while the stored salt and sentinel are unchanged: the
    database is left modified, not rolled back. -/
theorem changeMasterPassword_not_atomic :
    (changeMasterPassword wBadEx "TestPassword123!" "NewPassword1!").1 =
      .error .decryptionFailed ∧
    (changeMasterPassword wBadEx "TestPassword123!" "NewPassword1!").2.db.secrets ≠
      wBadEx.db.secrets ∧
    (changeMasterPassword wBadEx "TestPassword123!" "NewPassword1!").2.db.secrets =
      [⟨1, "API_KEY", encryptC ⟨"NewPassword1!", 10⟩ 11 "v1", Env.dev, none, none,
        5, 5, none, none⟩, rowForeignEx] ∧
    (changeMasterPassword wBadEx "TestPassword123!" "NewPassword1!").2.db.meta =
      wBadEx.db.meta := by
  exact ⟨rfl, by decide, rfl, rfl⟩

/-- C8: initialize with force=true on an already-initialized vault keeps the
    old secret rows (CREATE TABLE IF NOT EXISTS) but rewrites salt and
    sentinel under the new key, so the operation breaks invariant I2: the
    sentinel decrypts under the new current master key while the surviving
    secret value does not. -/
theorem forceInit_breaks_I2 :
    (initVault wEx "NewPassword1!" true none).1 = .ok () ∧
    (initVault wEx "NewPassword1!" true none).2.rt.masterKey =
      some ⟨"NewPassword1!", 10⟩ ∧
    I2 wEx.db mkEx ∧
    ¬ I2 (initVault wEx "NewPassword1!" true none).2.db
      ⟨"NewPassword1!", 10⟩ := by
  refine ⟨rfl, rfl, ?_, ?_⟩
  · unfold I2
    decide
  · unfold I2
    decide

/-- Decrypting a fresh encryption under the same key gives the plaintext. -/
theorem decryptC_encryptC (k : MKey) (n : Nat) (p : String) :
    decryptC k (encryptC k n p) = some p := by
  simp [decryptC, encryptC]

/-- The sentinel freshly written under a key verifies under that key. -/
theorem verifyPw_encryptC (k : MKey) (n : Nat) (v : String) :
    verifyPw k v (encryptC k n v) = true := by
  simp [verifyPw, decryptC_encryptC]

/-- Mapping a function that fixes every element of a list is the identity. -/
theorem map_eq_self_of_fix (l : List SecretRow) (f : SecretRow → SecretRow)
    (h : ∀ x ∈ l, f x = x) : l.map f = l := by
  induction l with
  | nil => rfl
  | cons a t ih =>
    simp only [List.map_cons]
    rw [h a (by simp), ih (fun x hx => h x (by simp [hx]))]

/-- setValueById rewrites exactly the row carrying the matching id. -/
theorem setValueById_middle (pre rest : List SecretRow) (r : SecretRow) (v : Ct)
    (hpre : ∀ x ∈ pre, x.id ≠ r.id) (hrest : ∀ x ∈ rest, x.id ≠ r.id) :
    setValueById (pre ++ r :: rest) r.id v =
      pre ++ { r with value := v } :: rest := by
  unfold setValueById
  rw [List.map_append, List.map_cons]
  rw [map_eq_self_of_fix pre _ (fun x hx => by simp [hpre x hx])]
  rw [map_eq_self_of_fix rest _ (fun x hx => by simp [hrest x hx])]
  simp

/-- Splitting an id-nodup row list around one row: no other element shares
    its id. -/
theorem nodup_id_split (pre rest : List SecretRow) (r : SecretRow)
    (h : ((pre ++ r :: rest).map SecretRow.id).Nodup) :
    (∀ x ∈ pre, x.id ≠ r.id) ∧ (∀ x ∈ rest, x.id ≠ r.id) := by
  rw [List.map_append, List.map_cons, List.nodup_append] at h
  obtain ⟨_, h2, h3⟩ := h
  constructor
  · intro x hx heq
    exact h3 (List.mem_map_of_mem SecretRow.id hx) (by simp [heq])
  · intro x hx heq
    rw [List.nodup_cons] at h2
    exact h2.1 (heq ▸ List.mem_map_of_mem SecretRow.id hx)

/-- When every snapshot row decrypts under the old key and ids are unique,
    the changeMasterPassword loop completes and re-encrypts the rows
    pointwise with consecutive fresh nonces. -/
theorem cmULoop_all (oldK newK : MKey) (rows : List SecretRow) :
    ∀ (pre : List SecretRow) (g : Nat),
    (∀ r ∈ rows, r.value.key = oldK) →
    ((pre ++ rows).map SecretRow.id).Nodup →
    cmULoop oldK newK rows (pre ++ rows) g =
      (none, pre ++ reencList newK g rows, g + rows.length) := by
  induction rows with
  | nil =>
    intro pre g _ _
    simp [cmULoop, reencList]
  | cons r rest ih =>
    intro pre g hdec hids
    have hk : r.value.key = oldK := hdec r (by simp)
    have hdr : decryptC oldK r.value = some r.value.plain := by
      simp [decryptC, hk]
    obtain ⟨hpre, hrest⟩ := nodup_id_split pre rest r hids
    have hupd := setValueById_middle pre rest r (encryptC newK g r.value.plain)
      hpre hrest
    have hids2 : (((pre ++ [{ r with value := encryptC newK g r.value.plain }]) ++
        rest).map SecretRow.id).Nodup := by
      simpa using hids
    have hdec2 : ∀ x ∈ rest, x.value.key = oldK :=
      fun x hx => hdec x (by simp [hx])
    have hrec := ih (pre ++ [{ r with value := encryptC newK g r.value.plain }])
      (g + 1) hdec2 hids2
    simp only [cmULoop, hdr, hupd]
    rw [show pre ++ { r with value := encryptC newK g r.value.plain } :: rest =
      (pre ++ [{ r with value := encryptC newK g r.value.plain }]) ++ rest by simp]
    rw [hrec]
    simp [reencList]
    omega

/-- Rows missed by the (key, environment) lookup stay missed after
    re-encryption. -/
theorem find_reencList_none (newK : MKey) (k : String) (e : Env) :
    ∀ (rows : List SecretRow) (g : Nat),
    rows.find? (fun x => x.key == k && x.environment == e) = none →
    (reencList newK g rows).find? (fun x => x.key == k && x.environment == e) =
      none := by
  intro rows
  induction rows with
  | nil =>
    intro g _
    simp [reencList]
  | cons r rest ih =>
    intro g h
    rw [List.find?_cons] at h
    cases hp : (r.key == k && r.environment == e) with
    | true => simp [hp] at h
    | false =>
      rw [hp] at h
      simp only [reencList, List.find?_cons]
      have hp2 : (({ r with value := encryptC newK g r.value.plain } :
          SecretRow).key == k &&
          ({ r with value := encryptC newK g r.value.plain } :
          SecretRow).environment == e) = false := hp
      rw [hp2]
      exact ih (g + 1) h

/-- Rows found by the (key, environment) lookup are found after
    re-encryption, with the value replaced by a fresh encryption of the same
    plaintext. -/
theorem find_reencList_some (newK : MKey) (k : String) (e : Env) :
    ∀ (rows : List SecretRow) (g : Nat) (r : SecretRow),
    rows.find? (fun x => x.key == k && x.environment == e) = some r →
    ∃ n, (reencList newK g rows).find?
        (fun x => x.key == k && x.environment == e) =
      some { r with value := encryptC newK n r.value.plain } := by
  intro rows
  induction rows with
  | nil =>
    intro g r h
    simp at h
  | cons x rest ih =>
    intro g r h
    rw [List.find?_cons] at h
    cases hp : (x.key == k && x.environment == e) with
    | true =>
      rw [hp] at h
      have hxr : x = r := by simpa using h
      subst hxr
      refine ⟨g, ?_⟩
      simp only [reencList, List.find?_cons]
      have hp2 : (({ x with value := encryptC newK g x.value.plain } :
          SecretRow).key == k &&
          ({ x with value := encryptC newK g x.value.plain } :
          SecretRow).environment == e) = true := hp
      rw [hp2]
    | false =>
      rw [hp] at h
      obtain ⟨n, hn⟩ := ih (g + 1) r h
      refine ⟨n, ?_⟩
      simp only [reencList, List.find?_cons]
      have hp2 : (({ x with value := encryptC newK g x.value.plain } :
          SecretRow).key == k &&
          ({ x with value := encryptC newK g x.value.plain } :
          SecretRow).environment == e) = false := hp
      rw [hp2]
      exact hn

/-- After re-encrypting every row under a newly installed key, get_secret
    returns the same first component for every key and environment. -/
theorem getSecret_fst_reenc
    (w w2 : World) (oldK newK : MKey) (g : Nat)
    (hmk : w.rt.masterKey = some oldK)
    (hmk2 : w2.rt.masterKey = some newK)
    (hsec : w2.db.secrets = reencList newK g w.db.secrets)
    (hdec : ∀ r ∈ w.db.secrets, r.value.key = oldK)
    (k : String) (e : Env) :
    (getSecret w2 k e).1 = (getSecret w k e).1 := by
  have hdecr : ∀ r ∈ w.db.secrets, decryptC oldK r.value = some r.value.plain :=
    fun r hr => by simp [decryptC, hdec r hr]
  cases h0 : getSecretRaw w.db k e with
  | some r =>
    obtain ⟨n, h2⟩ := find_reencList_some newK k e w.db.secrets g r h0
    have h2' : getSecretRaw w2.db k e =
        some { r with value := encryptC newK n r.value.plain } := by
      unfold getSecretRaw
      rw [hsec]
      exact h2
    have hdr : decryptC oldK r.value = some r.value.plain :=
      hdecr r (List.mem_of_find?_eq_some h0)
    simp [getSecret, hmk, hmk2, h0, h2', hdr, decryptC_encryptC]
  | none =>
    have h2 : getSecretRaw w2.db k e = none := by
      unfold getSecretRaw
      rw [hsec]
      exact find_reencList_none newK k e w.db.secrets g h0
    by_cases he : e = Env.all
    · subst he
      simp [getSecret, hmk, hmk2, h0, h2]
    · cases h1 : getSecretRaw w.db k Env.all with
      | some r =>
        obtain ⟨n, h3⟩ := find_reencList_some newK k Env.all w.db.secrets g r h1
        have h3' : getSecretRaw w2.db k Env.all =
            some { r with value := encryptC newK n r.value.plain } := by
          unfold getSecretRaw
          rw [hsec]
          exact h3
        have hdr : decryptC oldK r.value = some r.value.plain :=
          hdecr r (List.mem_of_find?_eq_some h1)
        simp [getSecret, hmk, hmk2, h0, h2, h1, h3', hdr, he, decryptC_encryptC]
      | none =>
        have h3' : getSecretRaw w2.db k Env.all = none := by
          unfold getSecretRaw
          rw [hsec]
          exact find_reencList_none newK k Env.all w.db.secrets g h1
        simp [getSecret, hmk, hmk2, h0, h2, h1, h3', he]

/-- C1: when old is the current master password of a well-formed vault
    (sentinel verifies under the key derived from old, every stored value is
    encrypted under that key, row ids are unique, no pending lockout),
    change_master_password(old, new) succeeds and, with the vault unlocked
    under new, get_secret returns the same value for every key and
    environment as it did before the call. -/
theorem changeMasterPassword_preserves_secrets
    (w : World) (oldPw newPw : String) (s : Nat) (c : Ct)
    (hE : w.fileExists = true)
    (hsalt : w.db.meta.salt = some s)
    (hmk : w.rt.masterKey = some ⟨oldPw, s⟩)
    (hsent : w.db.meta.sentinel = some c)
    (hver : verifyPw ⟨oldPw, s⟩ VERIFICATION_VALUE c = true)
    (hdec : ∀ r ∈ w.db.secrets, r.value.key = (⟨oldPw, s⟩ : MKey))
    (hids : (w.db.secrets.map SecretRow.id).Nodup)
    (hfa : w.db.meta.failedAttempts = some 0)
    (hlu : w.db.meta.lockoutUntil = some none)
    (hrtl : w.rt.lockoutUntil = none) :
    (changeMasterPassword w oldPw newPw).1 = .ok () ∧
    (changeMasterPassword w oldPw newPw).2.rt.masterKey =
      some ⟨newPw, w.rng⟩ ∧
    ∀ k e, (getSecret (changeMasterPassword w oldPw newPw).2 k e).1 =
      (getSecret w k e).1 := by
  have hloop := cmULoop_all ⟨oldPw, s⟩ ⟨newPw, w.rng⟩ w.db.secrets []
    (w.rng + 1) hdec (by simpa using hids)
  rw [List.nil_append] at hloop
  have hres : (changeMasterPassword w oldPw newPw).1 = .ok () ∧
      (changeMasterPassword w oldPw newPw).2.rt.masterKey =
        some ⟨newPw, w.rng⟩ ∧
      (changeMasterPassword w oldPw newPw).2.db.secrets =
        reencList ⟨newPw, w.rng⟩ (w.rng + 1) w.db.secrets := by
    simp [changeMasterPassword, hE, hsalt, hsent, hver, hloop, hmk, lockVault,
      unlockVault, loadLockoutState, hfa, hlu, hrtl, unlockCore,
      clearLockoutState, verifyPw_encryptC]
  refine ⟨hres.1, hres.2.1, fun k e => ?_⟩
  exact getSecret_fst_reenc w _ ⟨oldPw, s⟩ ⟨newPw, w.rng⟩ (w.rng + 1) hmk
    hres.2.1 hres.2.2 hdec k e

/-- Witness for changeMasterPassword_preserves_secrets on the concrete
    unlocked fixture vault. -/
theorem changeMasterPassword_preserves_secrets_witness :
    (changeMasterPassword wEx "TestPassword123!" "NewPassword1!").1 = .ok () ∧
    (getSecret (changeMasterPassword wEx "TestPassword123!" "NewPassword1!").2
      "API_KEY" Env.dev).1 = (getSecret wEx "API_KEY" Env.dev).1 := by
  have h := changeMasterPassword_preserves_secrets wEx "TestPassword123!"
    "NewPassword1!" 0 sentinelEx rfl rfl rfl (by decide) (by decide)
    (by decide) (by decide) rfl rfl rfl
  exact ⟨h.1, h.2.2 "API_KEY" Env.dev⟩

theorem likeF_congr (f : Nat) :
    ∀ (g : Nat) (p t : List Char), p.length + t.length < f →
      p.length + t.length < g → likeF f p t = likeF g p t := by
  induction f with
  | zero =>
    intro g p t hf _
    exact absurd hf (Nat.not_lt_zero _)
  | succ f1 ih =>
    intro g p t hf hg
    cases g with
    | zero => exact absurd hg (Nat.not_lt_zero _)
    | succ g1 =>
      show likeStep (likeF f1) p t = likeStep (likeF g1) p t
      cases p with
      | nil => rfl
      | cons c ps =>
        simp only [List.length_cons] at hf hg
        simp only [likeStep]
        by_cases hc : c = '%'
        · simp only [if_pos hc]
          cases t with
          | nil =>
            rw [ih g1 ps [] (by simp; omega) (by simp; omega)]
          | cons tc ts =>
            simp only [List.length_cons] at hf hg
            show (likeF f1 ps (tc :: ts) || likeF f1 (c :: ps) ts) =
              (likeF g1 ps (tc :: ts) || likeF g1 (c :: ps) ts)
            rw [ih g1 ps (tc :: ts) (by simp; omega) (by simp; omega),
              ih g1 (c :: ps) ts (by simp; omega) (by simp; omega)]
        · simp only [if_neg hc]
          by_cases hu : c = '_'
          · simp only [if_pos hu]
            cases t with
            | nil => rfl
            | cons tc ts =>
              simp only [List.length_cons] at hf hg
              exact ih g1 ps ts (by omega) (by omega)
          · simp only [if_neg hu]
            by_cases hb : c = '\\'
            · simp only [if_pos hb]
              cases ps with
              | nil => cases t <;> rfl
              | cons e ps2 =>
                cases t with
                | nil => rfl
                | cons tc ts =>
                  simp only [List.length_cons] at hf hg
                  show (upChar tc == upChar e && likeF f1 ps2 ts) =
                    (upChar tc == upChar e && likeF g1 ps2 ts)
                  rw [ih g1 ps2 ts (by omega) (by omega)]
            · simp only [if_neg hb]
              cases t with
              | nil => rfl
              | cons tc ts =>
                simp only [List.length_cons] at hf hg
                show (upChar tc == upChar c && likeF f1 ps ts) =
                  (upChar tc == upChar c && likeF g1 ps ts)
                rw [ih g1 ps ts (by omega) (by omega)]

theorem likeF_eq_likeM (f : Nat) (p t : List Char)
    (h : p.length + t.length < f) : likeF f p t = likeM p t :=
  likeF_congr f (p.length + t.length + 1) p t h (by omega)

theorem likeM_nil_nil : likeM [] [] = true := rfl

theorem likeM_nil_cons (c : Char) (ts : List Char) :
    likeM [] (c :: ts) = false := rfl

theorem likeM_pct_nil (ps : List Char) : likeM ('%' :: ps) [] = likeM ps [] := by
  have h1 : likeM ('%' :: ps) [] =
      (likeF (('%' :: ps).length + 0) ps [] || false) := rfl
  rw [h1, likeF_eq_likeM _ ps [] (by simp)]
  simp

theorem likeM_pct_cons (ps : List Char) (tc : Char) (ts : List Char) :
    likeM ('%' :: ps) (tc :: ts) =
      (likeM ps (tc :: ts) || likeM ('%' :: ps) ts) := by
  have h1 : likeM ('%' :: ps) (tc :: ts) =
      (likeF (('%' :: ps).length + (tc :: ts).length) ps (tc :: ts) ||
        likeF (('%' :: ps).length + (tc :: ts).length) ('%' :: ps) ts) := rfl
  rw [h1, likeF_eq_likeM _ ps (tc :: ts) (by simp),
    likeF_eq_likeM _ ('%' :: ps) ts (by simp)]

theorem likeM_esc_cons (e : Char) (ps : List Char) (tc : Char) (ts : List Char) :
    likeM ('\\' :: e :: ps) (tc :: ts) =
      (upChar tc == upChar e && likeM ps ts) := by
  have h1 : likeM ('\\' :: e :: ps) (tc :: ts) =
      (upChar tc == upChar e &&
        likeF (('\\' :: e :: ps).length + (tc :: ts).length) ps ts) := rfl
  rw [h1, likeF_eq_likeM _ ps ts (by simp; omega)]

theorem likeM_esc_nil (ps : List Char) : likeM ('\\' :: ps) [] = false := by
  cases ps <;> rfl

theorem likeM_lit_cons (c : Char) (ps : List Char) (tc : Char) (ts : List Char)
    (hc : c ≠ '%') (hu : c ≠ '_') (hb : c ≠ '\\') :
    likeM (c :: ps) (tc :: ts) = (upChar tc == upChar c && likeM ps ts) := by
  show likeStep (likeF ((c :: ps).length + (tc :: ts).length)) (c :: ps) (tc :: ts) =
    (upChar tc == upChar c && likeM ps ts)
  simp only [likeStep, if_neg hc, if_neg hu, if_neg hb]
  rw [likeF_eq_likeM _ ps ts (by simp; omega)]

theorem likeM_lit_nil (c : Char) (ps : List Char)
    (hc : c ≠ '%') (hu : c ≠ '_') (hb : c ≠ '\\') :
    likeM (c :: ps) [] = false := by
  show likeStep (likeF ((c :: ps).length + 0)) (c :: ps) [] = false
  simp only [likeStep, if_neg hc, if_neg hu, if_neg hb]




theorem likeM_pct_univ (t : List Char) : likeM ['%'] t = true := by
  induction t with
  | nil => rfl
  | cons c ts ih =>
    rw [likeM_pct_cons]
    simp [ih]

theorem likeM_escaped_pct (q : List Char) :
    ∀ t, likeM (escapeL q ++ ['%']) t = true ↔
      ∃ a b, t = a ++ b ∧ a.map upChar = q.map upChar := by
  induction q with
  | nil =>
    intro t
    simp only [escapeL, List.nil_append, likeM_pct_univ, List.map_nil, true_iff]
    exact ⟨[], t, rfl, rfl⟩
  | cons c q1 ih =>
    intro t
    have hstep : ∀ tc ts, likeM (escapeL (c :: q1) ++ ['%']) (tc :: ts) =
        (upChar tc == upChar c && likeM (escapeL q1 ++ ['%']) ts) := by
      intro tc ts
      by_cases hesc : c = '%' ∨ c = '_' ∨ c = '\\'
      · simp only [escapeL, if_pos hesc, List.cons_append]
        exact likeM_esc_cons c (escapeL q1 ++ ['%']) tc ts
      · push_neg at hesc
        simp only [escapeL, if_neg (by tauto : ¬ (c = '%' ∨ c = '_' ∨ c = '\\')),
          List.cons_append]
        exact likeM_lit_cons c _ tc ts hesc.1 hesc.2.1 hesc.2.2
    have hnil : likeM (escapeL (c :: q1) ++ ['%']) [] = false := by
      by_cases hesc : c = '%' ∨ c = '_' ∨ c = '\\'
      · simp only [escapeL, if_pos hesc, List.cons_append]
        exact likeM_esc_nil _
      · push_neg at hesc
        simp only [escapeL, if_neg (by tauto : ¬ (c = '%' ∨ c = '_' ∨ c = '\\')),
          List.cons_append]
        exact likeM_lit_nil c _ hesc.1 hesc.2.1 hesc.2.2
    cases t with
    | nil =>
      rw [hnil]
      constructor
      · intro h
        exact absurd h (by simp)
      · rintro ⟨a, b, hab, hmap⟩
        rcases List.append_eq_nil.mp hab.symm with ⟨rfl, rfl⟩
        simp at hmap
    | cons tc ts =>
      rw [hstep]
      constructor
      · intro h
        rw [Bool.and_eq_true, beq_iff_eq] at h
        obtain ⟨a, b, rfl, hmap⟩ := (ih ts).mp h.2
        exact ⟨tc :: a, b, rfl, by simp [hmap, h.1]⟩
      · rintro ⟨a, b, hab, hmap⟩
        cases a with
        | nil => simp at hmap
        | cons a0 a1 =>
          rw [List.cons_append, List.cons.injEq] at hab
          rw [List.map_cons, List.map_cons, List.cons.injEq] at hmap
          rw [Bool.and_eq_true, beq_iff_eq]
          refine ⟨by rw [hab.1, hmap.1], ?_⟩
          exact (ih ts).mpr ⟨a1, b, hab.2, hmap.2⟩

theorem likeM_pct_split (P : List Char) :
    ∀ t, likeM ('%' :: P) t = true ↔
      ∃ pre rest, t = pre ++ rest ∧ likeM P rest = true := by
  intro t
  induction t with
  | nil =>
    rw [likeM_pct_nil]
    constructor
    · intro h
      exact ⟨[], [], rfl, h⟩
    · rintro ⟨pre, rest, hab, h⟩
      rcases List.append_eq_nil.mp hab.symm with ⟨rfl, rfl⟩
      exact h
  | cons tc ts ih =>
    rw [likeM_pct_cons]
    constructor
    · intro h
      rw [Bool.or_eq_true] at h
      rcases h with h1 | h2
      · exact ⟨[], tc :: ts, rfl, h1⟩
      · obtain ⟨pre, rest, hab, hr⟩ := ih.mp h2
        exact ⟨tc :: pre, rest, by rw [hab, List.cons_append], hr⟩
    · rintro ⟨pre, rest, hab, hr⟩
      rw [Bool.or_eq_true]
      cases pre with
      | nil =>
        rw [List.nil_append] at hab
        exact Or.inl (hab ▸ hr)
      | cons p0 p1 =>
        rw [List.cons_append, List.cons.injEq] at hab
        exact Or.inr (ih.mpr ⟨p1, rest, hab.2, hr⟩)

theorem likeM_mkPattern (q t : List Char) :
    likeM ('%' :: (escapeL q ++ ['%'])) t = true ↔
      ∃ x y, t.map upChar = x ++ q.map upChar ++ y := by
  rw [likeM_pct_split]
  constructor
  · rintro ⟨pre, rest, rfl, hr⟩
    obtain ⟨a, b, rfl, hmap⟩ := (likeM_escaped_pct q rest).mp hr
    exact ⟨pre.map upChar, b.map upChar, by simp [hmap]⟩
  · rintro ⟨x, y, hmap⟩
    refine ⟨t.take x.length, t.drop x.length,
      (List.take_append_drop _ t).symm, ?_⟩
    apply (likeM_escaped_pct q _).mpr
    refine ⟨(t.drop x.length).take q.length, (t.drop x.length).drop q.length,
      (List.take_append_drop _ _).symm, ?_⟩
    rw [List.map_take, List.map_drop, hmap, List.append_assoc, List.drop_left,
      ← List.length_map q upChar, List.take_left]

/-- Membership in an insertion step of the ORDER BY sort. -/
theorem mem_insertSorted (r a : SecretRow) (l : List SecretRow) :
    a ∈ insertSorted r l ↔ a = r ∨ a ∈ l := by
  induction l with
  | nil => simp [insertSorted]
  | cons x xs ih =>
    simp only [insertSorted]
    by_cases h : rowLe r x
    · simp [h]
    · simp [h, ih]
      tauto

/-- Sorting by ORDER BY key, environment preserves membership. -/
theorem mem_sortRows (a : SecretRow) (l : List SecretRow) :
    a ∈ sortRows l ↔ a ∈ l := by
  induction l with
  | nil => simp [sortRows]
  | cons x xs ih =>
    simp [sortRows, mem_insertSorted, ih]

/-- C7 counterexample: search_secrets("fOO") returns the row whose
    description is "Foo" although neither the key "KEY1" nor the description
    "Foo" contains "fOO" as a case-sensitive substring — the SQL LIKE match
    is ASCII-case-insensitive, so the claim's case-sensitive reading is
    false. -/
theorem searchSecrets_case_sensitivity_counterexample :
    (searchSecrets wSearchEx "fOO").1 = .ok [rowDescEx] ∧
    csSubB "fOO".data "KEY1".data = false ∧
    csSubB "fOO".data "Foo".data = false := by
  refine ⟨rfl, by decide, by decide⟩

/-- C7 (amended): search_secrets escapes %, _ and \ in the query, so they
    match literally, and returns exactly the stored rows whose key or
    description contains the query as an ASCII-case-insensitive substring
    (SQLite's default LIKE collation), leaving the world unchanged. -/
theorem searchSecrets_matches_case_folded
    (w : World) (q : String) (mk : MKey) (l : List SecretRow)
    (hmk : w.rt.masterKey = some mk)
    (hl : (searchSecrets w q).1 = .ok l) :
    (searchSecrets w q).2 = w ∧
    ∀ r, r ∈ l ↔ (r ∈ w.db.secrets ∧
      (foldSub q r.key ∨ ∃ d, r.description = some d ∧ foldSub q d)) := by
  constructor
  · simp [searchSecrets, hmk]
  · intro r
    have hl2 : l = sortRows (w.db.secrets.filter (searchRowMatch q)) := by
      simp [searchSecrets, hmk] at hl
      exact hl.symm
    subst hl2
    rw [mem_sortRows, List.mem_filter]
    constructor
    · rintro ⟨hmem, hmatch⟩
      refine ⟨hmem, ?_⟩
      unfold searchRowMatch at hmatch
      rw [Bool.or_eq_true] at hmatch
      rcases hmatch with h | h
      · exact Or.inl ((likeM_mkPattern q.data r.key.data).mp h)
      · cases hd : r.description with
        | none =>
          rw [hd] at h
          simp at h
        | some d =>
          rw [hd] at h
          exact Or.inr ⟨d, rfl, (likeM_mkPattern q.data d.data).mp h⟩
    · rintro ⟨hmem, hc⟩
      refine ⟨hmem, ?_⟩
      unfold searchRowMatch
      rw [Bool.or_eq_true]
      rcases hc with h | ⟨d, hd, h⟩
      · exact Or.inl ((likeM_mkPattern q.data r.key.data).mpr h)
      · right
        rw [hd]
        exact (likeM_mkPattern q.data d.data).mpr h

/-- Witness for searchSecrets_matches_case_folded on the concrete search
    fixture. -/
theorem searchSecrets_matches_case_folded_witness :
    (searchSecrets wSearchEx "fOO").2 = wSearchEx ∧
    (rowDescEx ∈ [rowDescEx] ↔ (rowDescEx ∈ wSearchEx.db.secrets ∧
      (foldSub "fOO" rowDescEx.key ∨
        ∃ d, rowDescEx.description = some d ∧ foldSub "fOO" d))) := by
  have h := searchSecrets_matches_case_folded wSearchEx "fOO" mkEx
    [rowDescEx] rfl rfl
  exact ⟨h.1, h.2 rowDescEx⟩

/-- Dropping the length of a leading chunk plus n drops the chunk and n
    more. -/
theorem drop_len_add (l1 l2 : List Nat) (n : Nat) :
    (l1 ++ l2).drop (l1.length + n) = l2.drop n := by
  induction l1 with
  | nil => simp
  | cons a t ih => simpa [Nat.succ_add] using ih

/-- Reading back a written 32-bit big-endian length recovers it. -/
theorem readU32_eq_of_drop (l : List Nat) (off n : Nat) (rest : List Nat)
    (h : l.drop off = u32be n ++ rest) (hn : n < 4294967296) :
    readU32 l off = n := by
  unfold readU32
  rw [h]
  show n / 16777216 % 256 * 16777216 + n / 65536 % 256 * 65536 +
    n / 256 % 256 * 256 + n % 256 = n
  omega

/-- C9: restoring the backup of a vault database file returns exactly the
    original bytes, for both the plain (type byte 0x00) and the encrypted
    (type byte 0x01) framings, given the fixed field widths (16-byte salt,
    12-byte iv, 16-byte tag) and a metadata block shorter than 2^32 bytes. -/
theorem backup_restore_roundtrip
    (A : Aead) (vaultData metaBytes salt iv : List Nat)
    (password : Option String)
    (hsalt : salt.length = 16) (hiv : iv.length = 12)
    (hmeta : metaBytes.length < 4294967296) :
    restoreBackup A (createBackup A vaultData metaBytes salt iv password)
      password = .ok vaultData := by
  cases password with
  | none =>
    have hd1 : (createBackup A vaultData metaBytes salt iv none).drop 1 =
        u32be metaBytes.length ++ (metaBytes ++ vaultData) := by
      simp [createBackup, List.append_assoc]
    have hlen := readU32_eq_of_drop _ 1 metaBytes.length _ hd1 hmeta
    have hdrop : (createBackup A vaultData metaBytes salt iv none).drop
        (5 + metaBytes.length) = vaultData := by
      have h2 : 5 + metaBytes.length = (4 + metaBytes.length) + 1 := by omega
      rw [h2]
      show ((u32be metaBytes.length ++ metaBytes ++ vaultData) : List Nat).drop
        (4 + metaBytes.length) = vaultData
      rw [List.append_assoc]
      have h3 : 4 + metaBytes.length =
          (u32be metaBytes.length).length + metaBytes.length := by simp [u32be]
      rw [h3, drop_len_add]
      exact List.drop_left _ _
    have hcond : ((createBackup A vaultData metaBytes salt iv none).getD 0 0
        == 1) = false := rfl
    simp only [restoreBackup, hcond, Bool.false_eq_true, if_false, hlen, hdrop]
  | some pw =>
    have hX : (createBackup A vaultData metaBytes salt iv (some pw)).drop 1 =
        salt ++ (iv ++ (A.tagOf ⟨pw, salt⟩ iv vaultData ++
          (u32be metaBytes.length ++ (metaBytes ++
            A.enc ⟨pw, salt⟩ iv vaultData)))) := by
      simp [createBackup, List.append_assoc]
    have hsalt2 : subBytes (createBackup A vaultData metaBytes salt iv
        (some pw)) 1 17 = salt := by
      unfold subBytes
      rw [hX]
      exact List.take_left' hsalt
    have hdrop17 : (createBackup A vaultData metaBytes salt iv
        (some pw)).drop 17 =
        iv ++ (A.tagOf ⟨pw, salt⟩ iv vaultData ++
          (u32be metaBytes.length ++ (metaBytes ++
            A.enc ⟨pw, salt⟩ iv vaultData))) := by
      have h1 : ((createBackup A vaultData metaBytes salt iv
          (some pw)).drop 1).drop 16 =
          (createBackup A vaultData metaBytes salt iv (some pw)).drop 17 := by
        rw [List.drop_drop]
      rw [← h1, hX]
      exact List.drop_left' hsalt
    have hiv2 : subBytes (createBackup A vaultData metaBytes salt iv
        (some pw)) 17 29 = iv := by
      unfold subBytes
      rw [hdrop17]
      exact List.take_left' hiv
    have hdrop29 : (createBackup A vaultData metaBytes salt iv
        (some pw)).drop 29 =
        A.tagOf ⟨pw, salt⟩ iv vaultData ++
          (u32be metaBytes.length ++ (metaBytes ++
            A.enc ⟨pw, salt⟩ iv vaultData)) := by
      have h1 : ((createBackup A vaultData metaBytes salt iv
          (some pw)).drop 17).drop 12 =
          (createBackup A vaultData metaBytes salt iv (some pw)).drop 29 := by
        rw [List.drop_drop]
      rw [← h1, hdrop17]
      exact List.drop_left' hiv
    have htag2 : subBytes (createBackup A vaultData metaBytes salt iv
        (some pw)) 29 45 = A.tagOf ⟨pw, salt⟩ iv vaultData := by
      unfold subBytes
      rw [hdrop29]
      exact List.take_left' (A.tag_len ⟨pw, salt⟩ iv vaultData)
    have hdrop45 : (createBackup A vaultData metaBytes salt iv
        (some pw)).drop 45 =
        u32be metaBytes.length ++ (metaBytes ++
          A.enc ⟨pw, salt⟩ iv vaultData) := by
      have h1 : ((createBackup A vaultData metaBytes salt iv
          (some pw)).drop 29).drop 16 =
          (createBackup A vaultData metaBytes salt iv (some pw)).drop 45 := by
        rw [List.drop_drop]
      rw [← h1, hdrop29]
      exact List.drop_left' (A.tag_len ⟨pw, salt⟩ iv vaultData)
    have hlen := readU32_eq_of_drop _ 45 metaBytes.length _ hdrop45 hmeta
    have hct : (createBackup A vaultData metaBytes salt iv (some pw)).drop
        (49 + metaBytes.length) = A.enc ⟨pw, salt⟩ iv vaultData := by
      have h2 : ((createBackup A vaultData metaBytes salt iv
          (some pw)).drop 45).drop (4 + metaBytes.length) =
          (createBackup A vaultData metaBytes salt iv (some pw)).drop
            (49 + metaBytes.length) := by
        rw [List.drop_drop]
        congr 1
        omega
      rw [← h2, hdrop45]
      have h3 : 4 + metaBytes.length =
          (u32be metaBytes.length).length + metaBytes.length := by simp [u32be]
      rw [h3, drop_len_add]
      exact List.drop_left _ _
    have hcond : ((createBackup A vaultData metaBytes salt iv
        (some pw)).getD 0 0 == 1) = true := rfl
    simp only [restoreBackup, hcond, if_true, hsalt2, hiv2, htag2, hlen, hct,
      A.dec_enc]

/-- A trivial instance of the AEAD contract, for concrete evaluation. -/
def idAead : Aead where
  enc := fun _ _ d => d
  tagOf := fun _ _ _ => List.replicate 16 7
  dec := fun _ _ tg d => if tg = List.replicate 16 7 then some d else none
  tag_len := fun _ _ _ => List.length_replicate 16 7
  dec_enc := fun _ _ _ => by simp

/-- Witness for backup_restore_roundtrip at concrete byte lists for both
    framings. -/
theorem backup_restore_roundtrip_witness :
    restoreBackup idAead
      (createBackup idAead [9, 8, 7] [2, 3] (List.replicate 16 1)
        (List.replicate 12 2) (some "pw")) (some "pw") = .ok [9, 8, 7] ∧
    restoreBackup idAead
      (createBackup idAead [9, 8, 7] [2, 3] (List.replicate 16 1)
        (List.replicate 12 2) none) none = .ok [9, 8, 7] := by
  constructor
  · exact backup_restore_roundtrip idAead [9, 8, 7] [2, 3] _ _ (some "pw")
      (by decide) (by decide) (by decide)
  · exact backup_restore_roundtrip idAead [9, 8, 7] [2, 3] _ _ none
      (by decide) (by decide) (by decide)
